import Mathlib

/-!
Verification of `backend_src/lambda_function.py` (resume-tailoring lambda).

Python strings are modelled as `List Char`; `str.lower` is modelled by
`Char.toLower` (ASCII); Python regular-expression literals are translated to
executable matchers with Python's leftmost, greedy-with-backtracking
semantics; network and external-library effects (urllib, pypdf, boto3) are
modelled as oracle arguments describing the outcome of the external call.
-/

set_option maxRecDepth 20000

namespace ResumeLambda

/-- Shorthand turning a Lean string literal into the `List Char` string model. -/
def S (s : String) : List Char := s.data

/-- Python `str.lower()` on the ASCII range. -/
def lower (s : List Char) : List Char := s.map Char.toLower

/-- Python whitespace for `str.strip`/`str.split` (ASCII subset). -/
def isPySpace (c : Char) : Bool :=
  c == ' ' || c == '\t' || c == '\n' || c == '\x0d' || c == '\x0b' || c == '\x0c'

/-- Strip characters satisfying `p` from the left (Python `lstrip`). -/
def lstripP (p : Char → Bool) (s : List Char) : List Char := s.dropWhile p

/-- Strip characters satisfying `p` from the right (Python `rstrip`). -/
def rstripP (p : Char → Bool) (s : List Char) : List Char :=
  (s.reverse.dropWhile p).reverse

/-- Python `str.strip` with a character predicate. -/
def stripP (p : Char → Bool) (s : List Char) : List Char := rstripP p (lstripP p s)

/-- Python `str.strip()` (whitespace). -/
def pyStrip (s : List Char) : List Char := stripP isPySpace s

/-- Python `str.strip(chars)` for an explicit character set. -/
def stripSet (cset : List Char) (s : List Char) : List Char :=
  stripP (fun c => cset.contains c) s

/-- Python `str.split()`: split on whitespace runs, dropping empty words. -/
def pyWords (s : List Char) : List (List Char) :=
  (s.splitOnP isPySpace).filter (fun w => !w.isEmpty)

/-- `sep.join ws` (Python `str.join`). -/
def joinSep (sep : List Char) : List (List Char) → List Char
  | [] => []
  | [w] => w
  | w :: ws => w ++ sep ++ joinSep sep ws

/-- Helper for `splitlines`: accumulates the current line reversed.
Models the `\n`, `\r\n`, `\r` boundaries of Python `str.splitlines`. -/
def splitlinesAux : List Char → List Char → List (List Char)
  | acc, [] => [acc.reverse]
  | acc, '\x0d' :: '\n' :: t =>
      acc.reverse :: (if t.isEmpty then [] else splitlinesAux [] t)
  | acc, '\x0d' :: t =>
      acc.reverse :: (if t.isEmpty then [] else splitlinesAux [] t)
  | acc, '\n' :: t =>
      acc.reverse :: (if t.isEmpty then [] else splitlinesAux [] t)
  | acc, c :: t => splitlinesAux (c :: acc) t

/-- Python `str.splitlines()` (restricted to the `\n`, `\r\n`, `\r` boundaries;
a trailing boundary produces no extra empty line, and `""` gives `[]`). -/
def splitlines (s : List Char) : List (List Char) :=
  if s.isEmpty then [] else splitlinesAux [] s

/-- Python `haystack.find(needle)`: index of the first occurrence, as an Option
(`none` models `-1`). -/
def pyFind (needle : List Char) : List Char → Option Nat
  | [] => if needle <+: ([] : List Char) then some 0 else none
  | c :: t => if needle <+: (c :: t) then some 0 else (pyFind needle t).map (· + 1)

/-- Python `needle in haystack` (substring containment). -/
def containsB (hay needle : List Char) : Bool := decide (needle <:+: hay)

/-- Fueled scan for Python `s.replace(X, Y)`: each step consumes at least one
input character, so `s.length` fuel always suffices. -/
def replaceAllGo (X Y : List Char) : Nat → List Char → List Char
  | 0, s => s
  | _, [] => []
  | fuel + 1, c :: t =>
      if X ≠ [] ∧ X <+: (c :: t) then
        Y ++ replaceAllGo X Y fuel ((c :: t).drop X.length)
      else c :: replaceAllGo X Y fuel t

/-- Python `s.replace(X, Y)`: replace every non-overlapping occurrence of `X`
left to right. -/
def replaceAll (X Y s : List Char) : List Char := replaceAllGo X Y s.length s

/-- Deduplicate preserving first-seen order (Python manual `seen`-set loop). -/
def dedupSeen : List (List Char) → List (List Char) → List (List Char)
  | [], _ => []
  | u :: r, seen => if u ∈ seen then dedupSeen r seen else u :: dedupSeen r (u :: seen)

/-- A character is cased (ASCII model). -/
def isCased (c : Char) : Bool := c.isUpper || c.isLower

/-- Python `str.isupper()`: at least one cased character, and every cased
character is uppercase. -/
def pyIsUpper (s : List Char) : Bool :=
  s.any isCased && s.all (fun c => !isCased c || c.isUpper)

/-- Helper for `pyIsTitle`: walks the string carrying whether the previous
character was cased. -/
def istitleGo : Bool → List Char → Bool
  | _, [] => true
  | prev, c :: t =>
      if c.isUpper then !prev && istitleGo true t
      else if c.isLower then prev && istitleGo true t
      else istitleGo false t

/-- Python `str.istitle()`: uppercase only after uncased, lowercase only after
cased, and at least one cased character. -/
def pyIsTitle (s : List Char) : Bool := s.any isCased && istitleGo false s

/-- Python `html.escape` (with quotes) of a single character. -/
def escChar (c : Char) : List Char :=
  if c == '&' then S "&amp;"
  else if c == '<' then S "&lt;"
  else if c == '>' then S "&gt;"
  else if c == '"' then S "&quot;"
  else if c == Char.ofNat 39 then S "&#x27;"
  else [c]

/-- Python `html.escape(s, quote=True)` as used by `htmlmod.escape`. -/
def htmlEscape (s : List Char) : List Char := (s.map escChar).flatten

/-! ### Regex models

`CONTACT_EMAIL_RE`, `CONTACT_PHONE_RE` and `LINK_RE` from the source are
translated to executable matchers with Python's leftmost, greedy (with
backtracking) semantics. -/

/-- Character class `[A-Z0-9._%+\-]` under `re.I`. -/
def isLocalChar (c : Char) : Bool :=
  c.isAlpha || c.isDigit || c == '.' || c == '_' || c == '%' || c == '+' || c == '-'

/-- Character class `[A-Z0-9.\-]` under `re.I`. -/
def isDomainChar (c : Char) : Bool := c.isAlpha || c.isDigit || c == '.' || c == '-'

/-- Backtracking over the greedy `[A-Z0-9.\-]+` domain run of the email
pattern: try the longest prefix of length `k` first, then require a literal
dot and a greedy `[A-Z]{2,}` run. Returns the matched domain text. -/
def emailDomSplit (tail : List Char) : Nat → Option (List Char)
  | 0 => none
  | k + 1 =>
      match tail.drop (k + 1) with
      | '.' :: r2 =>
          let tld := r2.takeWhile Char.isAlpha
          if 2 ≤ tld.length then some (tail.take (k + 1) ++ '.' :: tld)
          else emailDomSplit tail k
      | _ => emailDomSplit tail k

/-- Match `CONTACT_EMAIL_RE` anchored at the start of `s`, returning the
matched text (Python greedy semantics; the local-part class excludes `@`, so
only the domain run backtracks). -/
def emailAt (s : List Char) : Option (List Char) :=
  let loc := s.takeWhile isLocalChar
  if loc.isEmpty then none
  else
    match s.drop loc.length with
    | '@' :: tail =>
        let n := (tail.takeWhile isDomainChar).length
        match emailDomSplit tail n with
        | some dom => some (loc ++ '@' :: dom)
        | none => none
    | _ => none

/-- `CONTACT_EMAIL_RE.search`: first (leftmost) match of the email pattern. -/
def emailSearch : List Char → Option (List Char)
  | [] => emailAt []
  | c :: t =>
      match emailAt (c :: t) with
      | some m => some m
      | none => emailSearch t

/-- Character class `[\s\-\.]` of the phone pattern. -/
def isSepChar (c : Char) : Bool := isPySpace c || c == '-' || c == '.'

/-- Phone core `\d{3}[\s\-\.]\d{4}`: returns matched length (8) on success. -/
def phoneCore (s : List Char) : Option Nat :=
  let d3 := s.take 3
  if d3.length == 3 && d3.all Char.isDigit then
    match s.drop 3 with
    | sep :: r =>
        if isSepChar sep then
          let d4 := r.take 4
          if d4.length == 4 && d4.all Char.isDigit then some 8 else none
        else none
    | [] => none
  else none

/-- `[\s\-\.]` then the phone core, counting the separator. -/
def sepThenCore (s : List Char) : Option Nat :=
  match s with
  | c :: r => if isSepChar c then (phoneCore r).map (· + 1) else none
  | [] => none

/-- `\)?[\s\-\.]` then the phone core; the optional `)` is greedy with
backtracking. -/
def tryClose (s : List Char) : Option Nat :=
  match s with
  | ')' :: r => ((sepThenCore r).map (· + 1)).orElse (fun _ => sepThenCore s)
  | _ => sepThenCore s

/-- `\d{3}\)?[\s\-\.]` then the phone core. -/
def phoneBDigits (s : List Char) : Option Nat :=
  let d3 := s.take 3
  if d3.length == 3 && d3.all Char.isDigit then (tryClose (s.drop 3)).map (· + 3)
  else none

/-- `\(?\d{3}\)?[\s\-\.]` then the phone core; the optional `(` is greedy with
backtracking. -/
def phoneB (s : List Char) : Option Nat :=
  match s with
  | '(' :: r => ((phoneBDigits r).map (· + 1)).orElse (fun _ => phoneBDigits s)
  | _ => phoneBDigits s

/-- The optional group `(?:\(?\d{3}\)?[\s\-\.])?` followed by the core: group
present is tried first (greedy), then absent. -/
def phoneAfterA (s : List Char) : Option Nat :=
  (phoneB s).orElse (fun _ => phoneCore s)

/-- `\d{1,3}[\s\-\.]` then the rest of the phone pattern, with the greedy digit
count tried from `k` down to 1. -/
def phoneADigits (s : List Char) : Nat → Option Nat
  | 0 => none
  | k + 1 =>
      let d := s.take (k + 1)
      (if d.length == k + 1 && d.all Char.isDigit then
        match s.drop (k + 1) with
        | c :: r =>
            if isSepChar c then (phoneAfterA r).map (· + (k + 1) + 1) else none
        | [] => none
      else none).orElse (fun _ => phoneADigits s k)

/-- Match `CONTACT_PHONE_RE` anchored at the start of `s`, returning matched
text. -/
def phoneAt (s : List Char) : Option (List Char) :=
  let withA : Option Nat :=
    match s with
    | '+' :: r => ((phoneADigits r 3).map (· + 1)).orElse (fun _ => phoneADigits s 3)
    | _ => phoneADigits s 3
  (withA.orElse (fun _ => phoneAfterA s)).map s.take

/-- `CONTACT_PHONE_RE.search`: first (leftmost) match. -/
def phoneSearch : List Char → Option (List Char)
  | [] => phoneAt []
  | c :: t =>
      match phoneAt (c :: t) with
      | some m => some m
      | none => phoneSearch t

/-- Case-insensitive literal prefix test (the literal is given lowercase). -/
def ciPrefix (lit s : List Char) : Bool := decide (lit <+: lower (s.take lit.length))

/-- Match `LINK_RE = (?:https?://|www\.)\S+` anchored at the start of `s`;
returns the matched text and the remaining input. -/
def linkAt (s : List Char) : Option (List Char × List Char) :=
  let tryP : List Char → Option (List Char × List Char) := fun p =>
    if ciPrefix p s then
      let body := (s.drop p.length).takeWhile (fun c => !isPySpace c)
      if body.isEmpty then none
      else some (s.take (p.length + body.length), s.drop (p.length + body.length))
    else none
  (tryP (S "https://")).orElse fun _ =>
    (tryP (S "http://")).orElse fun _ => tryP (S "www.")

/-- Fueled scan for `LINK_RE.findall`: non-overlapping matches left to right. -/
def linkFindAllGo : Nat → List Char → List (List Char)
  | 0, _ => []
  | _, [] => []
  | fuel + 1, c :: t =>
      match linkAt (c :: t) with
      | some (m, rest) => m :: linkFindAllGo fuel rest
      | none => linkFindAllGo fuel t

/-- `LINK_RE.findall`. -/
def linkFindAll (s : List Char) : List (List Char) := linkFindAllGo s.length s

/-! ### Contact and section-structure extraction -/

/-- The result of `_extract_contact_bits`. -/
structure ContactBits where
  name : List Char
  email : List Char
  phone : List Char
  links : List (List Char)
deriving DecidableEq

/-- `re.search(r"education|experience|projects|skills", ln, re.I)` is not
`None`: an alternation of literals matches iff one of them occurs as a
case-insensitive substring. -/
def kwSearch (ln : List Char) : Bool :=
  containsB (lower ln) (S "education") || containsB (lower ln) (S "experience") ||
    containsB (lower ln) (S "projects") || containsB (lower ln) (S "skills")

/-- `_extract_contact_bits`. -/
def extract_contact_bits (resume_text : List Char) : ContactBits :=
  let text := pyStrip resume_text
  let lines := ((splitlines text).map pyStrip).filter (fun l => !l.isEmpty)
  let name := ((lines.take 6).find? (fun ln => !kwSearch ln)).getD []
  let email := (emailSearch text).getD []
  let phone := (phoneSearch text).getD []
  let uniqLinks := dedupSeen (linkFindAll text) []
  ⟨name.take 120, email, phone, uniqLinks.take 5⟩

/-- `SECTION_CANON`. -/
def SECTION_CANON : List (List Char) :=
  [S "header", S "summary", S "objective", S "skills", S "technical skills",
    S "experience", S "work experience", S "professional experience",
    S "projects", S "education", S "certifications", S "awards",
    S "publications", S "activities", S "volunteering"]

/-- `_normalize_heading`: strip surrounding `" \t:-•—"`, then collapse internal
whitespace. -/
def normalize_heading (h : List Char) : List Char :=
  joinSep (S " ") (pyWords (pyStrip (stripSet (S " \t:-•—") h)))

/-- `_looks_like_heading`. -/
def looks_like_heading (line : List Char) : Bool :=
  let s := pyStrip line
  if 80 < s.length || s.length < 3 then false
  else
    let s2 := if s.getLast? == some ':' then s.dropLast else s
    let words := pyWords s2
    if words.length ≤ 6 && (pyIsUpper s2 || pyIsTitle s2) then true
    else decide (lower s2 ∈ SECTION_CANON)

/-- `h.lower().rstrip(":")`, the dedup key used in `_detect_section_order`. -/
def headKey (h : List Char) : List Char := rstripP (· == ':') (lower h)

/-- The collection loop of `_detect_section_order` (first pass, with its
inline `seen`-set dedup). -/
def dsoLoop : List (List Char) → List (List Char) → List (List Char)
  | [], _ => []
  | raw :: rest, seen =>
      if looks_like_heading raw then
        let h := normalize_heading raw
        let k := headKey h
        if k ∈ seen then dsoLoop rest seen else h :: dsoLoop rest (k :: seen)
      else dsoLoop rest seen

/-- The second dedup pass of `_detect_section_order`. -/
def dedupKey : List (List Char) → List (List Char) → List (List Char)
  | [], _ => []
  | h :: rest, seen =>
      let k := headKey h
      if k ∈ seen then dedupKey rest seen else h :: dedupKey rest (k :: seen)

/-- `_detect_section_order`. -/
def detect_section_order (t : List Char) : List (List Char) :=
  (dedupKey (dsoLoop (splitlines t) []) []).take 12

/-! ### Verification of generated HTML -/

/-- `_ensure_invariants_present`. -/
def ensure_invariants_present (html : List Char) (inv : ContactBits) : Bool :=
  if html.isEmpty then false
  else
    (if inv.name.isEmpty then true else containsB (lower html) (lower inv.name)) &&
      (if inv.email.isEmpty then true else containsB (lower html) (lower inv.email))

/-- The needle `_normalize_heading(h).lower().rstrip(":")` used by `_order_ok`. -/
def orderNeedle (h : List Char) : List Char :=
  rstripP (· == ':') (lower (normalize_heading h))

/-- The scanning loop of `_order_ok`, carrying the previous match position
(`-1` initially, as in the source). -/
def orderOkGo (textL : List Char) (pos : Int) : List (List Char) → Bool
  | [] => true
  | h :: rest =>
      match pyFind (orderNeedle h) textL with
      | none => false
      | some idx => if (idx : Int) < pos then false else orderOkGo textL idx rest

/-- `_order_ok` (closure over the detected `section_order`). -/
def order_ok (sectionOrder : List (List Char)) (html : List Char) : Bool :=
  if sectionOrder.isEmpty then true else orderOkGo (lower html) (-1) sectionOrder

/-- The combined verification used by `_ai_tailor_resume_html`:
`_ensure_invariants_present(html, invariants) and _order_ok(html)`. -/
def verifyB (inv : ContactBits) (order : List (List Char)) (h : List Char) : Bool :=
  ensure_invariants_present h inv && order_ok order h

/-! ### The no-credential fallback template of `_ai_tailor_resume_html` -/

/-- `resume_text.replace("<","&lt;").replace(">","&gt;")`. -/
def safe_resume_of (t : List Char) : List Char :=
  replaceAll (S ">") (S "&gt;") (replaceAll (S "<") (S "&lt;") t)

/-- Fallback template up to (and excluding) the `<h1>` opening tag. -/
def tnkA : List Char :=
  S "<!doctype html>\n<html lang=\"en\"><meta charset=\"utf-8\" />\n<title>Tailored Resume (AI disabled)</title>\n<style>\nbody\x7bfont-family:system-ui,-apple-system,Segoe UI,Roboto,Helvetica,Arial,sans-serif;background:#0b1220;color:#e6eaf2;margin:24px\x7d\n.card\x7bbackground:#121a2b;border:1px solid #223154;border-radius:14px;padding:22px;max-width:900px;margin:auto\x7d\nh1,h2\x7bmargin:0 0 10px\x7d h1\x7bfont-size:28px\x7d h2\x7bfont-size:18px;margin-top:22px\x7d ul\x7bmargin:8px 0 0 18px\x7d\n.muted\x7bcolor:#9aa6be;font-size:13px\x7d\nli\x7bcolor:#fff\x7d\n</style>\n<div class=\"card\">\n"

/-- Fallback template between the name block and the email. -/
def tnkB : List Char := S "\n<div class=\"muted\">"

/-- Fallback template between the phone and the links. -/
def tnkD : List Char := S "</div>\n<p class=\"muted\">"

/-- Fallback template between the links and the preformatted block. -/
def tnkE : List Char := S "</p>\n<h2>Original (not parsed)</h2>\n"

/-- The opening of the preformatted block in the fallback template. -/
def preOpen : List Char := S "<pre style=\"white-space:pre-wrap\">"

/-- The tail of the fallback template after the escaped resume text. -/
def tnkF : List Char := S "\n</div>\n</html>"

/-- The `not api_key` branch of `_ai_tailor_resume_html`: deterministic escaped
rendering of the original resume (no network use; `job_text` and `interests`
are not consulted by this branch in the source). -/
def tailor_no_key (resume_text : List Char) : List Char :=
  let inv := extract_contact_bits resume_text
  tnkA ++ S "<h1>" ++
    htmlEscape (if inv.name.isEmpty then S "Your Name" else inv.name) ++ S "</h1>" ++
    tnkB ++ htmlEscape inv.email ++ S " " ++ htmlEscape inv.phone ++
    tnkD ++ joinSep (S " • ") (inv.links.map htmlEscape) ++ tnkE ++
    preOpen ++ safe_resume_of resume_text ++ S "</pre>" ++ tnkF

/-! ### Post-processing and the guarded generation call (`_call_once`) -/

/-- The `css` constant built inside `_ai_tailor_resume_html`. -/
def cssBlock : List Char :=
  S "<style>\nbody\x7bfont-family:system-ui,-apple-system,Segoe UI,Roboto,Helvetica,Arial,sans-serif;background:#0b1220;color:#e6eaf2;margin:24px\x7d\n.card\x7bbackground:#121a2b;border:1px solid #223154;border-radius:14px;padding:22px;max-width:900px;margin:auto\x7d\nh1,h2\x7bmargin:0 0 10px\x7d h1\x7bfont-size:28px\x7d h2\x7bfont-size:18px;margin-top:22px\x7d\nul\x7bmargin:8px 0 0 18px\x7d\nli\x7bcolor:#fff\x7d\n</style>\n"

/-- The doctype guard of `_call_once`:
`if "<!doctype" not in html.lower(): html = "<!doctype html>\n" + html`. -/
def doctypeStep (html : List Char) : List Char :=
  if containsB (lower html) (S "<!doctype") then html
  else S "<!doctype html>\n" ++ html

/-- The literal `"li{color"` probed by `_call_once`. -/
def liNeedle : List Char := S "li\x7bcolor"

/-- The rule `"li{color:#fff}\n"` injected before `</style>`. -/
def liRule : List Char := S "li\x7bcolor:#fff\x7d\n"

/-- The closing style tag literal. -/
def styleClose : List Char := S "</style>"

/-- The style guard of `_call_once`: inject the default css after `<head>`, or
wrap in a minimal document, or inject the list-item colour rule before
`</style>`. -/
def styleStep (html : List Char) : List Char :=
  if !containsB (lower html) (S "<style") then
    if containsB html (S "<head>") then
      replaceAll (S "<head>") (S "<head>\n" ++ cssBlock) html
    else
      let bodyPart := if containsB (lower html) (S "<html") then [] else html
      S "<!doctype html><html><head>" ++ cssBlock ++ S "</head><body>" ++
        (if bodyPart.isEmpty then html else bodyPart) ++ S "</body></html>"
  else if !containsB html liNeedle then
    replaceAll styleClose (liRule ++ styleClose) html
  else html

/-- The whole post-processing of a successful completion in `_call_once`. -/
def postprocess (html : List Char) : List Char := styleStep (doctypeStep html)

/-- The error page `_call_once` synthesises when the generation call raises
(or returns an empty completion). -/
def errorPage (e : List Char) : List Char :=
  S "<!doctype html><html><head>" ++ cssBlock ++
    S "</head><body><div class=\x27card\x27><h2>Tailor error</h2><p class=\x27muted\x27>OpenAI request failed or timed out.</p><pre>" ++
    htmlEscape e ++ S "</pre></div></body></html>"

/-- `_call_once`, with the generation backend's outcome supplied as an oracle:
`.error e` models an exception with message `e`, `.ok h` a completion `h`
(an empty completion raises `"empty completion"` inside the guarded block). -/
def call_once (r : Except (List Char) (List Char)) : List Char :=
  match r with
  | .error e => errorPage e
  | .ok h => if h.isEmpty then errorPage (S "empty completion") else postprocess h

/-- `_ai_tailor_resume_html`. `hasKey` models whether `OPENAI_API_KEY` is set;
`maxRetries` models `OPENAI_MAX_RETRIES`; `r1`/`r2` are the outcomes of the
first and (potential) second generation call. The second component counts the
generation calls actually issued (0 on the fallback path), recording that the
retry path makes exactly one extra call. -/
def ai_tailor_resume_html (resume_text _job_text _interests : List Char)
    (hasKey : Bool) (maxRetries : Nat)
    (r1 r2 : Except (List Char) (List Char)) : List Char × Nat :=
  if !hasKey then (tailor_no_key resume_text, 0)
  else
    let inv := extract_contact_bits resume_text
    let order := detect_section_order resume_text
    let html := call_once r1
    if 0 < maxRetries ∧ verifyB inv order html = false then
      let html2 := call_once r2
      (if verifyB inv order html2 = true then html2 else html, 2)
    else (html, 1)

/-! ### `_get_text_from_url` -/

/-- After a case-insensitive `<script`/`<style` opening, consume the lazy
`.*?>` (first `>`), then the lazy `.*?</tag>` (first case-insensitive closing
tag); returns the rest of the input after the closing tag. -/
def tryTag (tag : List Char) (s : List Char) : Option (List Char) :=
  let a := s.takeWhile (fun c => !(c == '>'))
  match s.drop a.length with
  | '>' :: b =>
      let close := S "</" ++ tag ++ S ">"
      match pyFind close (lower b) with
      | some i => some (b.drop (i + close.length))
      | none => none
  | _ => none

/-- Match `(?is)<(script|style).*?>.*?</\1>` anchored at the start of `s`;
returns the rest of the input after the match. -/
def scriptStyleAt (s : List Char) : Option (List Char) :=
  if ciPrefix (S "<script") s then tryTag (S "script") (s.drop 7)
  else if ciPrefix (S "<style") s then tryTag (S "style") (s.drop 6)
  else none

/-- Fueled scan for `re.sub(r"(?is)<(script|style).*?>.*?</\1>", " ", html)`. -/
def sssGo : Nat → List Char → List Char
  | 0, s => s
  | _, [] => []
  | fuel + 1, c :: t =>
      match scriptStyleAt (c :: t) with
      | some rest => ' ' :: sssGo fuel rest
      | none => c :: sssGo fuel t

/-- `re.sub(r"(?is)<(script|style).*?>.*?</\1>", " ", html)`. -/
def stripScriptStyle (s : List Char) : List Char := sssGo s.length s

/-- Match `(?s)<[^>]+>` anchored at the start of `s`; returns the rest. -/
def tagAt (s : List Char) : Option (List Char) :=
  match s with
  | '<' :: r =>
      let a := r.takeWhile (fun c => !(c == '>'))
      if a.isEmpty then none
      else
        match r.drop a.length with
        | '>' :: b => some b
        | _ => none
  | _ => none

/-- Fueled scan for `re.sub(r"(?s)<[^>]+>", " ", text)`. -/
def stGo : Nat → List Char → List Char
  | 0, s => s
  | _, [] => []
  | fuel + 1, c :: t =>
      match tagAt (c :: t) with
      | some rest => ' ' :: stGo fuel rest
      | none => c :: stGo fuel t

/-- `re.sub(r"(?s)<[^>]+>", " ", text)`. -/
def stripTags (s : List Char) : List Char := stGo s.length s

/-- `html.unescape`, modelled on the core named entities (`amp`, `lt`, `gt`,
`quot`, `nbsp`, and the apostrophe forms); the stdlib handles a larger table,
which no claim depends on. -/
def unescGo : Nat → List Char → List Char
  | 0, s => s
  | _, [] => []
  | fuel + 1, c :: t =>
      if c == '&' then
        if S "amp;" <+: t then '&' :: unescGo fuel (t.drop 4)
        else if S "lt;" <+: t then '<' :: unescGo fuel (t.drop 3)
        else if S "gt;" <+: t then '>' :: unescGo fuel (t.drop 3)
        else if S "quot;" <+: t then '"' :: unescGo fuel (t.drop 5)
        else if S "nbsp;" <+: t then ' ' :: unescGo fuel (t.drop 5)
        else if S "#x27;" <+: t then Char.ofNat 39 :: unescGo fuel (t.drop 5)
        else if S "#39;" <+: t then Char.ofNat 39 :: unescGo fuel (t.drop 4)
        else c :: unescGo fuel t
      else c :: unescGo fuel t

/-- `htmlmod.unescape` (modelled subset, see `unescGo`). -/
def pyUnescape (s : List Char) : List Char := unescGo s.length s

/-- `_get_text_from_url`. The network fetch is an oracle: `.error e` models
any exception raised while fetching (message `e`), `.ok body` the decoded
response body. Every path returns a string: the function never raises. -/
def get_text_from_url (url : List Char)
    (fetch : Except (List Char) (List Char)) : List Char :=
  if url.isEmpty then S "[No job URL provided]"
  else
    match fetch with
    | .error e => S "[Could not fetch JD: " ++ e ++ S "]"
    | .ok body =>
        let h1 := stripScriptStyle body
        let text := stripTags h1
        let text2 := pyUnescape (joinSep (S " ") (pyWords text))
        if text2.isEmpty then S "[Fetched page had no visible text]"
        else text2.take 20000

/-! ### `_extract_pdf_text` -/

/-- Oracle describing what `pypdf.PdfReader` does on the given bytes:
`.fail e` models the constructor raising (e.g. empty or non-PDF input);
`.doc enc decOk pages` models a parsed document that reports encryption
`enc`, whose empty-password `decrypt("")` succeeds iff `decOk`, and whose
pages yield the given extraction outcomes (`.error e` models
`page.extract_text()` raising; a `None` text is already folded to `""`). -/
inductive PdfModel where
  | fail (e : List Char)
  | doc (encrypted : Bool) (decryptOk : Bool)
      (pages : List (Except (List Char) (List Char)))

/-- The page loop of `_extract_pdf_text`: append page texts, breaking once the
accumulated length exceeds `max_chars * 1.1` (for integer lengths and
`max_chars = 20000` the float comparison `sum > 22000.000000000004` is exactly
`10 * sum > 11 * max_chars`); a raising page aborts to the outer handler. -/
def pdfLoop (maxChars : Nat) (acc : List (List Char)) :
    List (Except (List Char) (List Char)) → Except (List Char) (List (List Char))
  | [] => .ok acc
  | .error e :: _ => .error e
  | .ok t :: rest =>
      let acc2 := acc ++ [t]
      if 11 * maxChars < 10 * (acc2.map List.length).sum then .ok acc2
      else pdfLoop maxChars acc2 rest

/-- `_extract_pdf_text` over the `PdfModel` oracle. -/
def extract_pdf_text (m : PdfModel) (maxChars : Nat) : List Char :=
  match m with
  | .fail e => S "[Could not extract PDF text: " ++ e ++ S "]"
  | .doc enc decOk pages =>
      if enc && !decOk then S "[PDF is encrypted; text not extracted]"
      else
        match pdfLoop maxChars [] pages with
        | .error e => S "[Could not extract PDF text: " ++ e ++ S "]"
        | .ok out =>
            let text := pyStrip (joinSep (S "\n") out)
            if text.isEmpty then S "[PDF had no extractable text]"
            else text.take maxChars

/-! ### Quota handling in `handle_upload_resume` and `handle_tailor` -/

/-- `MAX_DOCS_PER_USER`. -/
def MAX_DOCS_PER_USER : Nat := 10

/-- `ALLOWED_EXTS`. -/
def ALLOWED_EXTS : List (List Char) := [S "pdf", S "doc", S "docx", S "txt"]

/-- `_ext`: the lowercased text after the last dot of the filename, `""` when
there is no dot. -/
def pyExt (filename : List Char) : List Char :=
  if filename.contains '.' then
    ((lower filename).reverse.takeWhile (fun c => !(c == '.'))).reverse
  else []

/-- Oracles for the external effects touched by `handle_upload_resume`:
the field values after defaulting/stripping, the outcome of
`_count_docs_for_user` (`.error` models it raising), the decoded payload
length (`.error` models invalid base64), and whether the S3 put succeeds. -/
structure UploadCtx where
  userId : List Char
  filename : List Char
  hasContent : Bool
  count : Except Unit Nat
  decoded : Except Unit Nat
  s3putOk : Bool

/-- The part of `handle_upload_resume` after the quota check: base64 decode
(400 on failure), the 10MB size gate (413), the S3 put (500 on a client
error), then success (200). -/
def upload_post_quota (decoded : Except Unit Nat) (s3putOk : Bool) : Nat :=
  match decoded with
  | .error _ => 400
  | .ok len =>
      if 10 * 1024 * 1024 < len then 413
      else if !s3putOk then 500 else 200

/-- The status code returned by `handle_upload_resume` (the post-200 store
writes are outside the claims). -/
def handle_upload_resume_status (c : UploadCtx) : Nat :=
  if c.userId.isEmpty || c.filename.isEmpty || !c.hasContent then 400
  else if !(decide (pyExt c.filename ∈ ALLOWED_EXTS)) then 415
  else if (match c.count with
      | .ok n => decide (MAX_DOCS_PER_USER ≤ n)
      | .error _ => false) then 429
  else upload_post_quota c.decoded c.s3putOk

/-- Oracles for `handle_tailor`: stripped field values, the
`_count_docs_for_user` outcome, the located source document (`none` models not
found; `some key` carries its `s3Key`, `""` when missing), and whether the
final S3 put succeeds. Resume-byte reading, PDF extraction and the job fetch
never fail (they degrade to sentinel strings). -/
structure TailorCtx where
  userId : List Char
  documentId : List Char
  jobUrl : List Char
  count : Except Unit Nat
  docItem : Option (List Char)
  s3putOk : Bool

/-- The part of `handle_tailor` after the quota check: source-document lookup
(404 when absent, 400 when its `s3Key` is missing), then — the degraded-content
steps never failing — the final S3 put (500 on a client error) and success. -/
def tailor_post_quota (docItem : Option (List Char)) (s3putOk : Bool) : Nat :=
  match docItem with
  | none => 404
  | some srcKey =>
      if srcKey.isEmpty then 400
      else if !s3putOk then 500 else 200

/-- The status code returned by `handle_tailor`. -/
def handle_tailor_status (c : TailorCtx) : Nat :=
  if c.userId.isEmpty || c.documentId.isEmpty || c.jobUrl.isEmpty then 400
  else if (match c.count with
      | .ok n => decide (MAX_DOCS_PER_USER ≤ n)
      | .error _ => false) then 429
  else tailor_post_quota c.docItem c.s3putOk

/-! ### The `/score` route -/

/-- Python `round` to 3 places, modelled as exact ties-to-even rational
rounding of `1000 * q` (Python rounds the binary float; the difference is
immaterial to the claims, which concern the exact value 0). -/
def roundHalfEven (q : Rat) : Int :=
  let f := ⌊q⌋
  let r := q - f
  if r < 1 / 2 then f else if 1 / 2 < r then f + 1 else if f % 2 = 0 then f else f + 1

/-- `round(coverage, 3)`. -/
def round3 (q : Rat) : Rat := (roundHalfEven (q * 1000) : Rat) / 1000

/-- The divisor `max(1, len(required))` of the `/score` route. -/
def scoreDivisor (requiredSkills : List (List Char)) : Nat :=
  max 1 (dedupSeen (requiredSkills.map lower) []).length

/-- The `/score` route body: lowercased skill sets (modelled as deduplicated
lists), `coverage = len(resume & required) / max(1, len(required))` and
`score = round(coverage, 3)`; returns `(score, coverage)`. -/
def score_route (resumeSkills requiredSkills : List (List Char)) : Rat × Rat :=
  let resume := dedupSeen (resumeSkills.map lower) []
  let required := dedupSeen (requiredSkills.map lower) []
  let inter := resume.filter (fun x => decide (x ∈ required))
  let coverage : Rat := (inter.length : Rat) / (scoreDivisor requiredSkills : Rat)
  (round3 coverage, coverage)

/-! ### Specification-side definitions, written from the claims' wording -/

/-- First-occurrence position of a heading's needle in the lowercased HTML. -/
def hpos (html h : List Char) : Option Nat := pyFind (orderNeedle h) (lower html)

/-- The specification's reading of the verification: extracted non-empty name
and email occur case-insensitively, and, when a section order was detected,
every needle occurs with monotonically non-decreasing first positions. -/
def c2_spec_verify (html : List Char) (inv : ContactBits)
    (order : List (List Char)) : Prop :=
  (inv.name ≠ [] → lower inv.name <:+: lower html) ∧
  (inv.email ≠ [] → lower inv.email <:+: lower html) ∧
  (order ≠ [] →
    (∀ h ∈ order, (hpos html h).isSome = true) ∧
      List.Chain' (fun a b => (hpos html a).getD 0 ≤ (hpos html b).getD 0) order)

/-- The claim's keyword-freeness condition on a candidate name line, written
as case-insensitive substring absence. -/
def c7_keyword_free (ln : List Char) : Prop :=
  ¬ (S "education") <:+: lower ln ∧ ¬ (S "experience") <:+: lower ln ∧
    ¬ (S "projects") <:+: lower ln ∧ ¬ (S "skills") <:+: lower ln

instance (ln : List Char) : Decidable (c7_keyword_free ln) := by
  unfold c7_keyword_free
  infer_instance

/-- The stripped non-empty lines of the stripped resume text. -/
def c7_lines (t : List Char) : List (List Char) :=
  ((splitlines (pyStrip t)).map pyStrip).filter (fun l => !l.isEmpty)

/-- The single-pass form of `_detect_section_order` the specification
describes: headings filtered, normalized, deduplicated once by their
lowercase colon-stripped key, capped at 12. -/
def c8_spec_detect (t : List Char) : List (List Char) :=
  (dedupKey (((splitlines t).filter looks_like_heading).map normalize_heading) []).take 12

/-- The claim's heading criterion: trimmed length in `[3, 80]`, and either at
most 6 words that are fully uppercase or title-case (after stripping one
trailing colon), or the lowercase colon-stripped form is canonical. -/
def c8_spec_heading (line : List Char) : Prop :=
  3 ≤ (pyStrip line).length ∧ (pyStrip line).length ≤ 80 ∧
    (let s2 := if (pyStrip line).getLast? = some ':' then (pyStrip line).dropLast
      else pyStrip line
    ((pyWords s2).length ≤ 6 ∧ (pyIsUpper s2 = true ∨ pyIsTitle s2 = true)) ∨
      lower s2 ∈ SECTION_CANON)

/-! ## Helper lemmas -/

lemma containsB_iff (hay needle : List Char) :
    containsB hay needle = true ↔ needle <:+: hay := by
  simp [containsB]

lemma pyFind_isSome_iff (n : List Char) :
    ∀ h, (pyFind n h).isSome = true ↔ n <:+: h := by
  intro h
  induction h with
  | nil => by_cases hp : n = [] <;> simp [pyFind, hp]
  | cons c t ih =>
      by_cases hp : n <+: c :: t
      · simp [pyFind, hp, hp.isInfix]
      · simp [pyFind, hp, List.infix_cons_iff, ih]

lemma replaceAllGo_fuel (X Y : List Char) :
    ∀ (n m : Nat) (s : List Char), s.length ≤ n → s.length ≤ m →
      replaceAllGo X Y n s = replaceAllGo X Y m s := by
  intro n
  induction n with
  | zero =>
      intro m s hn hm
      have hs : s = [] := List.length_eq_zero.mp (Nat.le_zero.mp hn)
      subst hs
      cases m <;> rfl
  | succ n ih =>
      intro m s hn hm
      cases s with
      | nil => cases m <;> rfl
      | cons c t =>
          obtain ⟨m2, rfl⟩ : ∃ m2, m = m2 + 1 := by
            cases m
            · simp at hm
            · exact ⟨_, rfl⟩
          rw [replaceAllGo, replaceAllGo]
          by_cases hX : X ≠ [] ∧ X <+: (c :: t)
          · rw [if_pos hX, if_pos hX]
            have hx1 : 1 ≤ X.length := by
              cases hXnil : X with
              | nil => exact absurd rfl (hXnil ▸ hX.1)
              | cons a b => simp
            have hd : ((c :: t).drop X.length).length ≤ n := by
              simp only [List.length_drop, List.length_cons]
              simp only [List.length_cons] at hn
              omega
            have hd2 : ((c :: t).drop X.length).length ≤ m2 := by
              simp only [List.length_drop, List.length_cons]
              simp only [List.length_cons] at hm
              omega
            rw [ih m2 _ hd hd2]
          · rw [if_neg hX, if_neg hX]
            have hd : t.length ≤ n := by
              simp only [List.length_cons] at hn
              omega
            have hd2 : t.length ≤ m2 := by
              simp only [List.length_cons] at hm
              omega
            rw [ih m2 t hd hd2]

lemma replaceAll_nil (X Y : List Char) : replaceAll X Y [] = [] := rfl

lemma replaceAll_cons (X Y : List Char) (c : Char) (t : List Char) :
    replaceAll X Y (c :: t) =
      if X ≠ [] ∧ X <+: (c :: t) then Y ++ replaceAll X Y ((c :: t).drop X.length)
      else c :: replaceAll X Y t := by
  rw [replaceAll]
  simp only [List.length_cons]
  rw [replaceAllGo]
  by_cases hX : X ≠ [] ∧ X <+: (c :: t)
  · rw [if_pos hX, if_pos hX]
    congr 1
    have hx1 : 1 ≤ X.length := by
      cases hXnil : X with
      | nil => exact absurd rfl (hXnil ▸ hX.1)
      | cons a b => simp
    rw [replaceAll]
    apply replaceAllGo_fuel
    · simp only [List.length_drop, List.length_cons]
      omega
    · exact le_refl _
  · rw [if_neg hX, if_neg hX]
    rfl

lemma lower_append (a b : List Char) : lower (a ++ b) = lower a ++ lower b := by
  simp [lower]

lemma lower_cons (c : Char) (t : List Char) :
    lower (c :: t) = Char.toLower c :: lower t := by
  simp [lower]

lemma prefix_append_cases {p A B : List Char} (h : p <+: A ++ B) :
    p <+: A ∨ ∃ r, p = A ++ r ∧ r <+: B := by
  rcases List.prefix_or_prefix_of_prefix h (List.prefix_append A B) with h1 | h1
  · exact Or.inl h1
  · right
    obtain ⟨r, hr⟩ := h1
    refine ⟨r, hr.symm, ?_⟩
    rw [← hr] at h
    exact (List.prefix_append_right_inj A).mp h

lemma infix_append_cases {p A B : List Char} (h : p <:+: A ++ B) :
    p <:+: A ∨ p <:+: B ∨
      ∃ a b, p = a ++ b ∧ a ≠ [] ∧ b ≠ [] ∧ a <:+ A ∧ b <+: B := by
  induction A with
  | nil => exact Or.inr (Or.inl h)
  | cons c A2 ih =>
      rw [List.cons_append] at h
      rcases List.infix_cons_iff.mp h with hpre | hinf
      · rcases prefix_append_cases (A := c :: A2) (by simpa using hpre) with hc | ⟨r, hpr, hrB⟩
        · exact Or.inl ( List.IsPrefix.isInfix hc)
        · cases hr : r with
          | nil =>
              subst hr
              rw [List.append_nil] at hpr
              subst hpr
              exact Or.inl ( List.infix_rfl)
          | cons x xs =>
              subst hr
              exact Or.inr (Or.inr ⟨c :: A2, x :: xs, hpr, by simp, by simp,
                List.suffix_rfl, hrB⟩)
      · rcases ih hinf with hc | hc | ⟨a, b, hab, ha, hb, haA, hbB⟩
        · exact Or.inl ( List.infix_cons hc)
        · exact Or.inr (Or.inl hc)
        · exact Or.inr (Or.inr ⟨a, b, hab, ha, hb,
            haA.trans (List.suffix_cons c A2), hbB⟩)

lemma infix_replaceAll_rep (X Y : List Char) (hX : X ≠ []) :
    ∀ s, X <:+: s → Y <:+: replaceAll X Y s := by
  intro s
  induction s with
  | nil =>
      intro h
      exact absurd (List.infix_nil.mp h) hX
  | cons c t ih =>
      intro h
      rw [replaceAll_cons]
      by_cases hp : X <+: (c :: t)
      · rw [if_pos ⟨hX, hp⟩]
        exact List.IsPrefix.isInfix (List.prefix_append Y _)
      · rw [if_neg (fun hcon => hp hcon.2)]
        rcases List.infix_cons_iff.mp h with hl | hl
        · exact absurd hl hp
        · exact List.infix_cons (ih hl)

lemma replaceAll_append_left (X Y : List Char) :
    ∀ (a b : List Char),
      (∀ i, i < a.length → ¬ X <+: a.drop i ∧ ¬ a.drop i <+: X) →
      replaceAll X Y (a ++ b) = a ++ replaceAll X Y b := by
  intro a
  induction a with
  | nil =>
      intro b _
      simp
  | cons c a2 ih =>
      intro b H
      rw [List.cons_append, replaceAll_cons]
      have hnp : ¬ (X ≠ [] ∧ X <+: (c :: (a2 ++ b))) := by
        rintro ⟨-, hp⟩
      -- `X` and `c :: a2` are both prefixes of `(c :: a2) ++ b`, so comparable
        have hp2 : X <+: (c :: a2) ++ b := by simpa using hp
        rcases List.prefix_or_prefix_of_prefix hp2 (List.prefix_append (c :: a2) b)
          with hc | hc
        · exact (H 0 (by simp)).1 (by simpa using hc)
        · exact (H 0 (by simp)).2 (by simpa using hc)
      rw [if_neg hnp]
      rw [ih b (fun i hi => by simpa using H (i + 1) (by simpa using hi))]
      simp

lemma prefix_lower_replaceAll (X Y : List Char) :
    ∀ (p t : List Char), p <+: lower t →
      (∀ q, q <:+ p → q ≠ [] → ¬ lower X <+: q ∧ ¬ q <+: lower X) →
      p <+: lower (replaceAll X Y t) := by
  intro p
  induction p with
  | nil =>
      intro t _ _
      exact List.nil_prefix
  | cons d p2 ih =>
      intro t hp H
      cases t with
      | nil => simp [lower] at hp
      | cons e t2 =>
          rw [lower_cons] at hp
          obtain ⟨hde, hp2⟩ := List.cons_prefix_cons.mp hp
          rw [replaceAll_cons]
          have hnp : ¬ (X ≠ [] ∧ X <+: (e :: t2)) := by
            rintro ⟨-, hXp⟩
            have hlow : lower X <+: Char.toLower e :: lower t2 := by
              simpa [lower] using List.IsPrefix.map Char.toLower hXp
            rcases List.prefix_or_prefix_of_prefix hlow (List.cons_prefix_cons.mpr ⟨hde, hp2⟩)
              with hc | hc
            · exact (H (d :: p2) List.suffix_rfl (by simp)).1 hc
            · exact (H (d :: p2) List.suffix_rfl (by simp)).2 hc
          rw [if_neg hnp, lower_cons]
          refine List.cons_prefix_cons.mpr ⟨hde, ?_⟩
          exact ih t2 hp2 (fun q hq hqne => H q (hq.trans (List.suffix_cons d p2)) hqne)

lemma infix_lower_replaceAll (X Y pat : List Char) (hX : X ≠ [])
    (hXY : lower X <:+: lower Y)
    (h1 : ∀ j, j < pat.length - 1 → ¬ (pat.take (j + 1) <:+ lower X))
    (h2 : ∀ i, i < pat.length → ¬ (lower X <+: pat.drop i) ∧ ¬ (pat.drop i <+: lower X)) :
    ∀ s, pat <:+: lower s → pat <:+: lower (replaceAll X Y s) := by
  have main : ∀ (n : Nat) (s : List Char), s.length ≤ n → pat <:+: lower s →
      pat <:+: lower (replaceAll X Y s) := by
    intro n
    induction n with
    | zero =>
        intro s hs hp
        have hnil : s = [] := List.length_eq_zero.mp (Nat.le_zero.mp hs)
        subst hnil
        simpa using hp
    | succ n ih =>
        intro s hs hp
        cases s with
        | nil => simpa using hp
        | cons c t =>
            rw [replaceAll_cons]
            by_cases hpre : X <+: (c :: t)
            · rw [if_pos ⟨hX, hpre⟩]
              obtain ⟨rest, hrest⟩ := hpre
              have hdrop : (c :: t).drop X.length = rest := by
                rw [← hrest]
                exact List.drop_left X rest
              rw [hdrop, lower_append]
              have hsplit : lower (c :: t) = lower X ++ lower rest := by
                rw [← hrest, lower_append]
              rw [hsplit] at hp
              have hx1 : 1 ≤ X.length := by
                cases hXnil : X with
                | nil => exact absurd rfl (hXnil ▸ hX)
                | cons a b => simp
              have hrl : rest.length ≤ n := by
                have := congrArg List.length hrest
                simp only [List.length_append, List.length_cons] at this
                simp only [List.length_cons] at hs
                omega
              rcases infix_append_cases hp with hc | hc | ⟨a, b, hab, ha, hb, haX, hbB⟩
              · exact (hc.trans hXY).trans ( List.IsPrefix.isInfix (List.prefix_append _ _))
              · exact (ih rest hrl hc).trans ( List.IsSuffix.isInfix (List.suffix_append _ _))
              · exfalso
                have hlen1 : 1 ≤ a.length := by
                  cases hanil : a with
                  | nil => exact absurd hanil ha
                  | cons x xs => simp [hanil]
                have hsp : (a.length - 1) + 1 = a.length := by omega
                have hia : a = pat.take ((a.length - 1) + 1) := by
                  rw [hsp, hab, List.take_left]
                refine h1 (a.length - 1) ?_ (hia ▸ haX)
                have hlenb : 1 ≤ b.length := by
                  cases hbnil : b with
                  | nil => exact absurd hbnil hb
                  | cons x xs => simp [hbnil]
                rw [hab]
                simp only [List.length_append]
                omega
            · rw [if_neg (fun hcon => hpre hcon.2)]
              rw [lower_cons] at hp
              rcases List.infix_cons_iff.mp hp with hpl | hinf
              · have Hsuff : ∀ q, q <:+ pat → q ≠ [] →
                    ¬ lower X <+: q ∧ ¬ q <+: lower X := by
                  intro q hqs hqne
                  obtain ⟨pre, hpre2⟩ := hqs
                  have hdq : q = pat.drop pre.length := by
                    rw [← hpre2, List.drop_left]
                  have hilt : pre.length < pat.length := by
                    have := congrArg List.length hpre2
                    simp only [List.length_append] at this
                    have hq1 : 1 ≤ q.length := by
                      cases hqnil : q with
                      | nil => exact absurd hqnil hqne
                      | cons x xs => simp [hqnil]
                    omega
                  rw [hdq]
                  exact h2 pre.length hilt
                have hres := prefix_lower_replaceAll X Y pat (c :: t)
                  (by rw [lower_cons]; exact hpl) Hsuff
                rw [replaceAll_cons, if_neg (fun hcon => hpre hcon.2)] at hres
                exact List.IsPrefix.isInfix hres
              · have ht : t.length ≤ n := by
                  simp only [List.length_cons] at hs
                  omega
                rw [lower_cons]
                exact List.infix_cons (ih t ht hinf)
  intro s
  exact main s.length s (le_refl _)

lemma gturl_err (url e : List Char) (h : url.isEmpty = false) :
    get_text_from_url url (.error e) = S "[Could not fetch JD: " ++ e ++ S "]" := by
  simp [get_text_from_url, h]

/-! ## C5: the web text fetcher -/

/-- C5 counterexample: the claim asserts the fetcher always returns at most
20,000 characters, but on a fetch error the sentinel embeds the full error
message; with a 20,001-character error message (e.g. a huge URL echoed inside
a `URLError`) the result exceeds 20,000 characters. -/
theorem c5_length_cap_counterexample :
    20000 < (get_text_from_url (S "x") (.error (List.replicate 20001 'a'))).length := by
  rw [gturl_err (S "x") _ (by decide)]
  rw [List.length_append, List.length_append, List.length_replicate]
  have h1 : (S "[Could not fetch JD: ").length = 21 := by decide
  have h2 : (S "]").length = 1 := by decide
  omega

/-- C5 (amended): `_get_text_from_url` never raises (it is a total function of
the fetch outcome); an empty URL yields exactly the sentinel
`"[No job URL provided]"`; a fetch error yields the sentinel embedding the
error message (whose length is unbounded); and on a successful fetch the
result is capped at 20,000 characters. -/
theorem c5_web_fetcher_amended :
    (∀ fetch, get_text_from_url [] fetch = S "[No job URL provided]") ∧
    (∀ url e, url ≠ [] →
      get_text_from_url url (.error e) = S "[Could not fetch JD: " ++ e ++ S "]") ∧
    (∀ url b, url ≠ [] → (get_text_from_url url (.ok b)).length ≤ 20000) := by
  refine ⟨fun fetch => by simp [get_text_from_url], fun url e hu => ?_, fun url b hu => ?_⟩
  · exact gturl_err url e (by simpa [List.isEmpty_iff] using hu)
  · have hne : url.isEmpty = false := by simpa [List.isEmpty_iff] using hu
    rw [get_text_from_url]
    simp only [hne, Bool.false_eq_true, if_false]
    split
    · decide
    · exact le_trans (List.length_take_le _ _) (le_refl _)

/-- C5 witness: the amended theorem applied at concrete inputs. -/
theorem c5_web_fetcher_amended_witness :
    get_text_from_url (S "x") (.error (S "boom")) =
      S "[Could not fetch JD: " ++ S "boom" ++ S "]" ∧
    (get_text_from_url (S "x") (.ok (S "<p>hi</p>"))).length ≤ 20000 :=
  ⟨c5_web_fetcher_amended.2.1 (S "x") (S "boom") (by decide),
    c5_web_fetcher_amended.2.2 (S "x") (S "<p>hi</p>") (by decide)⟩

/-! ## C6: the PDF plaintext extractor -/

lemma pdfLoop_reaches_error (maxChars : Nat) :
    ∀ (oks : List (List Char)) (acc : List (List Char)) (e : List Char)
      (rest : List (Except (List Char) (List Char))),
      10 * (((acc.map List.length).sum) + ((oks.map List.length).sum)) ≤ 11 * maxChars →
      pdfLoop maxChars acc (oks.map Except.ok ++ .error e :: rest) = .error e := by
  intro oks
  induction oks with
  | nil =>
      intro acc e rest _
      rfl
  | cons t oks2 ih =>
      intro acc e rest h
      simp only [List.map_cons, List.cons_append, pdfLoop]
      have hsum : ((acc ++ [t]).map List.length).sum =
          (acc.map List.length).sum + t.length := by
        simp
      simp only [List.map_cons, List.sum_cons] at h
      rw [if_neg (by rw [hsum]; omega)]
      apply ih
      rw [hsum]
      omega

/-- C6: `_extract_pdf_text` never raises — it is a total function of the
`PdfModel` oracle (which covers empty input and non-PDF bytes via `.fail`) and
always returns a string. If the document reports encryption and the
empty-password decryption fails, the result is exactly
`"[PDF is encrypted; text not extracted]"`; a raising `PdfReader` constructor
yields the sentinel embedding the error; and ANY page-extraction error that
the loop reaches yields the sentinel embedding that error (third conjunct),
where the loop reaches the error after every prefix of successfully extracted
pages whose accumulated length stays within the `max_chars * 1.1` break
threshold (fourth conjunct) — in particular after one or more successful
pages, not just at the first page. -/
theorem c6_pdf_extractor_sentinels :
    (∀ e, extract_pdf_text (.fail e) 20000 =
      S "[Could not extract PDF text: " ++ e ++ S "]") ∧
    (∀ pages, extract_pdf_text (.doc true false pages) 20000 =
      S "[PDF is encrypted; text not extracted]") ∧
    (∀ (enc decOk : Bool) (pages : List (Except (List Char) (List Char)))
      (e : List Char), (enc = false ∨ decOk = true) →
      pdfLoop 20000 [] pages = .error e →
      extract_pdf_text (.doc enc decOk pages) 20000 =
        S "[Could not extract PDF text: " ++ e ++ S "]") ∧
    (∀ (oks : List (List Char)) (e : List Char)
      (rest : List (Except (List Char) (List Char))),
      10 * ((oks.map List.length).sum) ≤ 11 * 20000 →
      pdfLoop 20000 [] (oks.map Except.ok ++ .error e :: rest) = .error e) := by
  refine ⟨fun e => rfl, fun pages => rfl, fun enc decOk pages e hdec hloop => ?_,
    fun oks e rest h => pdfLoop_reaches_error 20000 oks [] e rest (by simpa using h)⟩
  have hcond : (enc && !decOk) = false := by
    rcases hdec with h | h <;> simp [h]
  simp only [extract_pdf_text, hcond, Bool.false_eq_true, if_false, hloop]

/-- C6 witness: a page error after a successfully extracted page — the loop
reaches it and the extractor returns the sentinel embedding the error. -/
theorem c6_pdf_extractor_sentinels_witness :
    pdfLoop 20000 []
      (([S "page one"]).map Except.ok ++ .error (S "boom") :: [Except.ok (S "x")]) =
      .error (S "boom") ∧
    extract_pdf_text (.doc false true
      (([S "page one"]).map Except.ok ++ .error (S "boom") :: [Except.ok (S "x")])) 20000 =
      S "[Could not extract PDF text: " ++ S "boom" ++ S "]" :=
  have hloop := c6_pdf_extractor_sentinels.2.2.2 [S "page one"] (S "boom")
    [Except.ok (S "x")] (by decide)
  ⟨hloop, c6_pdf_extractor_sentinels.2.2.1 false true _ (S "boom") (Or.inl rfl) hloop⟩

/-! ## C9: best-effort quota checks -/

/-- C9: in `handle_upload_resume` and `handle_tailor` a raising
`_count_docs_for_user` is swallowed: the handler behaves exactly as if the
count came back 0 (not over quota), and a 429 response occurs exactly when the
count was computed successfully and is at least `MAX_DOCS_PER_USER`, with the
request's validation having passed. -/
theorem c9_quota_best_effort :
    (∀ (u f : List Char) (hc : Bool) (d : Except Unit Nat) (s3 : Bool),
      handle_upload_resume_status ⟨u, f, hc, .error (), d, s3⟩ =
        handle_upload_resume_status ⟨u, f, hc, .ok 0, d, s3⟩) ∧
    (∀ c : UploadCtx, handle_upload_resume_status c = 429 ↔
      (c.userId.isEmpty = false ∧ c.filename.isEmpty = false ∧ c.hasContent = true ∧
        pyExt c.filename ∈ ALLOWED_EXTS ∧
        ∃ n, c.count = .ok n ∧ MAX_DOCS_PER_USER ≤ n)) ∧
    (∀ (u d j : List Char) (doc : Option (List Char)) (s3 : Bool),
      handle_tailor_status ⟨u, d, j, .error (), doc, s3⟩ =
        handle_tailor_status ⟨u, d, j, .ok 0, doc, s3⟩) ∧
    (∀ c : TailorCtx, handle_tailor_status c = 429 ↔
      (c.userId.isEmpty = false ∧ c.documentId.isEmpty = false ∧
        c.jobUrl.isEmpty = false ∧
        ∃ n, c.count = .ok n ∧ MAX_DOCS_PER_USER ≤ n)) := by
  have hupq : ∀ (d : Except Unit Nat) (s3 : Bool), upload_post_quota d s3 ≠ 429 := by
    intro d s3
    cases d with
    | error e => simp [upload_post_quota]
    | ok len =>
        simp only [upload_post_quota]
        split
        · simp
        · split <;> simp
  have htpq : ∀ (doc : Option (List Char)) (s3 : Bool), tailor_post_quota doc s3 ≠ 429 := by
    intro doc s3
    cases doc with
    | none => simp [tailor_post_quota]
    | some k =>
        simp only [tailor_post_quota]
        split
        · simp
        · split <;> simp
  refine ⟨fun u f hc d s3 => by simp [handle_upload_resume_status, MAX_DOCS_PER_USER],
    fun c => ?_,
    fun u d j doc s3 => by simp [handle_tailor_status, MAX_DOCS_PER_USER],
    fun c => ?_⟩
  · obtain ⟨u, f, hc, cnt, dec, s3⟩ := c
    simp only [handle_upload_resume_status]
    by_cases h1 : (u.isEmpty || f.isEmpty || !hc) = true
    · rw [if_pos h1]
      constructor
      · intro hcontra
        exact absurd hcontra (by decide)
      · rintro ⟨e1, e2, e3, -⟩
        simp [e1, e2, e3] at h1
    · rw [if_neg h1]
      have e1 : u.isEmpty = false := by
        cases hu : u.isEmpty
        · rfl
        · exact absurd (by simp [hu]) h1
      have e2 : f.isEmpty = false := by
        cases hf : f.isEmpty
        · rfl
        · exact absurd (by simp [hf]) h1
      have e3 : hc = true := by
        cases hhc : hc
        · exact absurd (by simp [hhc]) h1
        · rfl
      by_cases h4 : pyExt f ∈ ALLOWED_EXTS
      · rw [if_neg (by simp [h4])]
        cases cnt with
        | error e =>
            rw [if_neg (by simp)]
            simp only [e1, e2, e3, h4, true_and]
            constructor
            · intro hcontra
              exact absurd hcontra (hupq dec s3)
            · rintro ⟨n, hn, -⟩
              cases hn
        | ok n =>
            by_cases h5 : MAX_DOCS_PER_USER ≤ n
            · rw [if_pos (by simp [h5])]
              simp only [e1, e2, e3, h4, true_and, true_iff]
              exact ⟨n, rfl, h5⟩
            · rw [if_neg (by simp [h5])]
              simp only [e1, e2, e3, h4, true_and]
              constructor
              · intro hcontra
                exact absurd hcontra (hupq dec s3)
              · rintro ⟨m, hm, hle⟩
                cases hm
                exact absurd hle h5
      · rw [if_pos (by simp [h4])]
        constructor
        · intro hcontra
          exact absurd hcontra (by decide)
        · rintro ⟨-, -, -, hmem, -⟩
          exact absurd hmem h4
  · obtain ⟨u, d, j, cnt, doc, s3⟩ := c
    simp only [handle_tailor_status]
    by_cases h1 : (u.isEmpty || d.isEmpty || j.isEmpty) = true
    · rw [if_pos h1]
      constructor
      · intro hcontra
        exact absurd hcontra (by decide)
      · rintro ⟨e1, e2, e3, -⟩
        simp [e1, e2, e3] at h1
    · rw [if_neg h1]
      have e1 : u.isEmpty = false := by
        cases hu : u.isEmpty
        · rfl
        · exact absurd (by simp [hu]) h1
      have e2 : d.isEmpty = false := by
        cases hd : d.isEmpty
        · rfl
        · exact absurd (by simp [hd]) h1
      have e3 : j.isEmpty = false := by
        cases hj : j.isEmpty
        · rfl
        · exact absurd (by simp [hj]) h1
      cases cnt with
      | error e =>
          rw [if_neg (by simp)]
          simp only [e1, e2, e3, true_and]
          constructor
          · intro hcontra
            exact absurd hcontra (htpq doc s3)
          · rintro ⟨n, hn, -⟩
            cases hn
      | ok n =>
          by_cases h5 : MAX_DOCS_PER_USER ≤ n
          · rw [if_pos (by simp [h5])]
            simp only [e1, e2, e3, true_and, true_iff]
            exact ⟨n, rfl, h5⟩
          · rw [if_neg (by simp [h5])]
            simp only [e1, e2, e3, true_and]
            constructor
            · intro hcontra
              exact absurd hcontra (htpq doc s3)
            · rintro ⟨m, hm, hle⟩
              cases hm
              exact absurd hle h5

/-! ## C10: the `/score` route -/

/-- C10: the `/score` computation divides by `max(1, len(required))`, which is
always positive, so it never divides by zero; with an empty `requiredSkills`
list both coverage and score are exactly 0. -/
theorem c10_score_route_safe :
    (∀ rs, score_route rs [] = (0, 0)) ∧ (∀ req, 0 < scoreDivisor req) := by
  constructor
  · intro rs
    have hfilter :
        (dedupSeen (rs.map lower) []).filter
          (fun x => decide (x ∈ dedupSeen (([] : List (List Char)).map lower) [])) = [] := by
      simp [dedupSeen]
    simp only [score_route, hfilter, scoreDivisor, dedupSeen, List.map_nil,
      List.length_nil, List.length_nil]
    norm_num [round3, roundHalfEven]
  · intro req
    exact Nat.lt_of_lt_of_le Nat.one_pos (Nat.le_max_left 1 _)

/-! ## C2: characterisation of the verification checks -/


lemma orderOkGo_iff (textL : List Char) :
    ∀ (order : List (List Char)) (pos : Int),
      orderOkGo textL pos order = true ↔
        ((∀ h ∈ order, (pyFind (orderNeedle h) textL).isSome = true) ∧
          List.Chain' (fun a b =>
            (pyFind (orderNeedle a) textL).getD 0 ≤
              (pyFind (orderNeedle b) textL).getD 0) order ∧
          ∀ h ∈ order.head?, pos ≤ ((pyFind (orderNeedle h) textL).getD 0 : Int)) := by
  intro order
  induction order with
  | nil => intro pos; simp [orderOkGo]
  | cons h rest ih =>
      intro pos
      cases hf : pyFind (orderNeedle h) textL with
      | none => simp [orderOkGo, hf]
      | some idx =>
          by_cases hlt : (idx : Int) < pos
          · simp only [orderOkGo, hf, if_pos hlt]
            constructor
            · intro hfalse; cases hfalse
            · rintro ⟨-, -, hhead⟩
              have := hhead h rfl
              rw [hf] at this
              simp at this
              omega
          · simp only [orderOkGo, hf, if_neg hlt, ih, List.chain'_cons', List.head?_cons]
            constructor
            · rintro ⟨hall, hchain, hhead⟩
              refine ⟨?_, ⟨?_, hchain⟩, ?_⟩
              · intro g hg
                rcases List.mem_cons.mp hg with hg | hg
                · subst hg; rw [hf]; rfl
                · exact hall g hg
              · intro b hb
                have h2 := hhead b hb
                simp only [Option.getD_some]
                omega
              · intro g hg
                cases hg
                rw [hf]
                simp only [Option.getD_some]
                omega
            · rintro ⟨hall, ⟨hnext, hchain⟩, -⟩
              refine ⟨fun g hg => hall g (by simp [hg]), hchain, ?_⟩
              intro b hb
              have h2 := hnext b hb
              simp only [Option.getD_some] at h2
              omega

/-- C2: the conjunction of `_ensure_invariants_present` and `_order_ok` on a
non-empty HTML string holds exactly when the specification's conditions hold:
non-empty extracted name/email occur as case-insensitive substrings, and every
detected heading needle (lowercased, normalized, colon-stripped) occurs with
first positions non-decreasing along consecutive headings (none missing). -/
theorem c2_verification_characterisation (html : List Char) (inv : ContactBits)
    (order : List (List Char)) (hne : html ≠ []) :
    (ensure_invariants_present html inv = true ∧ order_ok order html = true) ↔
      c2_spec_verify html inv order := by
  have hnotempty : html.isEmpty = false := by simpa [List.isEmpty_iff] using hne
  constructor
  · rintro ⟨hinv, hord⟩
    rw [ensure_invariants_present, hnotempty] at hinv
    simp only [Bool.false_eq_true, if_false, Bool.and_eq_true] at hinv
    obtain ⟨hname, hemail⟩ := hinv
    refine ⟨?_, ?_, ?_⟩
    · intro hn
      have : inv.name.isEmpty = false := by simpa [List.isEmpty_iff] using hn
      rw [this] at hname
      simpa [containsB_iff] using hname
    · intro he
      have : inv.email.isEmpty = false := by simpa [List.isEmpty_iff] using he
      rw [this] at hemail
      simpa [containsB_iff] using hemail
    · intro hordne
      have hordne2 : order.isEmpty = false := by simpa [List.isEmpty_iff] using hordne
      rw [order_ok, hordne2] at hord
      simp only [Bool.false_eq_true, if_false] at hord
      have := (orderOkGo_iff (lower html) order (-1)).mp hord
      exact ⟨this.1, this.2.1⟩
  · rintro ⟨hname, hemail, hord⟩
    constructor
    · rw [ensure_invariants_present, hnotempty]
      simp only [Bool.false_eq_true, if_false, Bool.and_eq_true]
      constructor
      · by_cases hn : inv.name.isEmpty
        · rw [if_pos hn]
        · rw [if_neg hn]
          rw [containsB_iff]
          exact hname (by simpa [List.isEmpty_iff] using hn)
      · by_cases he : inv.email.isEmpty
        · rw [if_pos he]
        · rw [if_neg he]
          rw [containsB_iff]
          exact hemail (by simpa [List.isEmpty_iff] using he)
    · rw [order_ok]
      by_cases ho : order.isEmpty
      · rw [if_pos ho]
      · rw [if_neg ho]
        obtain ⟨hall, hchain⟩ := hord (by simpa [List.isEmpty_iff] using ho)
        refine (orderOkGo_iff (lower html) order (-1)).mpr ⟨hall, hchain, ?_⟩
        intro h hh
        have : (0 : Int) ≤ ((pyFind (orderNeedle h) (lower html)).getD 0 : Int) := by
          positivity
        omega

/-- C2 witness: the characterisation applied to a concrete generated page. -/
theorem c2_verification_characterisation_witness :
    c2_spec_verify (S "John Doe j@d.io\nExperience\nEducation")
      ⟨S "John Doe", S "j@d.io", [], []⟩ [S "Experience", S "Education"] :=
  (c2_verification_characterisation (S "John Doe j@d.io\nExperience\nEducation")
    ⟨S "John Doe", S "j@d.io", [], []⟩ [S "Experience", S "Education"]
    (by decide)).mp (by constructor <;> decide)

/-! ## C7: the contact extractor -/

/-- Nodup and freshness of the `seen`-set dedup loop. -/
lemma dedupSeen_props : ∀ (l seen : List (List Char)),
    (dedupSeen l seen).Nodup ∧ ∀ x ∈ dedupSeen l seen, x ∉ seen := by
  intro l
  induction l with
  | nil => intro seen; simp [dedupSeen]
  | cons u r ih =>
      intro seen
      by_cases hu : u ∈ seen
      · simpa [dedupSeen, hu] using ih seen
      · rw [dedupSeen, if_neg hu]
        constructor
        · refine List.nodup_cons.mpr ⟨?_, (ih (u :: seen)).1⟩
          intro hmem
          exact (ih (u :: seen)).2 u hmem (List.mem_cons_self u seen)
        · intro x hx
          rcases List.mem_cons.mp hx with rfl | hx2
          · exact hu
          · intro hxs
            exact (ih (u :: seen)).2 x hx2 (List.mem_cons_of_mem u hxs)


/-- C7: the extractor's name is the first of the first 6 non-empty lines free
of the section keywords (case-insensitive substring test), truncated to 120
characters and empty when no such line exists; its email is the first match
of the email pattern (empty when none); its links are the link matches
deduplicated preserving first-seen order and capped at 5 (hence at most 5,
with no duplicates). -/
theorem c7_contact_extractor : ∀ t : List Char,
    (extract_contact_bits t).name =
      ((((c7_lines t).take 6).find? fun ln => decide (c7_keyword_free ln)).getD []).take 120 ∧
    (extract_contact_bits t).email = (emailSearch (pyStrip t)).getD [] ∧
    (extract_contact_bits t).links = (dedupSeen (linkFindAll (pyStrip t)) []).take 5 ∧
    (extract_contact_bits t).links.length ≤ 5 ∧
    (extract_contact_bits t).links.Nodup := by
  intro t
  have hiff : ∀ ln, kwSearch ln = true ↔ ¬ c7_keyword_free ln := by
    intro ln
    rw [kwSearch, c7_keyword_free]
    simp only [Bool.or_eq_true, containsB, decide_eq_true_eq, not_and_or, not_not]
    tauto
  have hfun : (fun ln => !kwSearch ln) = fun ln => decide (c7_keyword_free ln) := by
    funext ln
    cases hkw : kwSearch ln
    · have hk2 : c7_keyword_free ln := by
        by_contra hc
        rw [← hiff ln, hkw] at hc
        cases hc
      simp [hk2]
    · have hk2 : ¬ c7_keyword_free ln := (hiff ln).mp hkw
      simp [hk2]
  refine ⟨?_, rfl, rfl, ?_, ?_⟩
  · rw [extract_contact_bits]
    simp only [c7_lines, hfun]
  · exact le_trans (List.length_take_le _ _) (le_refl _)
  · exact ((dedupSeen_props (linkFindAll (pyStrip t)) []).1).sublist (List.take_sublist _ _)

/-! ## C8: section order detection -/

lemma dedupKey_sublist : ∀ (l seen : List (List Char)),
    List.Sublist (dedupKey l seen) l := by
  intro l
  induction l with
  | nil => intro seen; simp [dedupKey]
  | cons h r ih =>
      intro seen
      by_cases hk : headKey h ∈ seen
      · rw [dedupKey]
        simp only [hk, if_true]
        exact (ih seen).trans (List.sublist_cons_self h r)
      · rw [dedupKey]
        simp only [hk, if_false]
        exact (ih (headKey h :: seen)).cons₂ h

lemma dedupKey_idem : ∀ (l seen : List (List Char)),
    dedupKey (dedupKey l seen) seen = dedupKey l seen := by
  intro l
  induction l with
  | nil => intro seen; simp [dedupKey]
  | cons h r ih =>
      intro seen
      by_cases hk : headKey h ∈ seen
      · rw [dedupKey]
        simp only [hk, if_true]
        exact ih seen
      · rw [dedupKey]
        simp only [hk, if_false]
        rw [dedupKey]
        simp only [hk, if_false]
        rw [ih (headKey h :: seen)]

lemma dsoLoop_eq : ∀ (ls seen : List (List Char)),
    dsoLoop ls seen = dedupKey ((ls.filter looks_like_heading).map normalize_heading) seen := by
  intro ls
  induction ls with
  | nil => intro seen; simp [dsoLoop, dedupKey]
  | cons raw rest ih =>
      intro seen
      by_cases hh : looks_like_heading raw = true
      · rw [List.filter_cons_of_pos hh, List.map_cons]
        by_cases hk : headKey (normalize_heading raw) ∈ seen
        · rw [dsoLoop, if_pos hh, dedupKey]
          simp only [hk, if_true, ih]
        · rw [dsoLoop, if_pos hh, dedupKey]
          simp only [hk, if_false, ih]
      · rw [List.filter_cons_of_neg (by simpa using hh)]
        rw [dsoLoop, if_neg hh, ih]


lemma heading_core_iff (s2 : List Char) :
    (if (decide ((pyWords s2).length ≤ 6) && (pyIsUpper s2 || pyIsTitle s2)) = true
      then true else decide (lower s2 ∈ SECTION_CANON)) = true ↔
      (((pyWords s2).length ≤ 6 ∧ (pyIsUpper s2 = true ∨ pyIsTitle s2 = true)) ∨
        lower s2 ∈ SECTION_CANON) := by
  split
  · rename_i hcond
    simp only [Bool.and_eq_true, decide_eq_true_eq, Bool.or_eq_true] at hcond
    simp [hcond]
  · rename_i hcond
    simp only [Bool.and_eq_true, decide_eq_true_eq, Bool.or_eq_true, not_and_or] at hcond
    simp only [decide_eq_true_eq]
    constructor
    · exact fun hmem => Or.inr hmem
    · rintro (⟨hw, hcase⟩ | hmem)
      · rcases hcond with hc | hc
        · exact absurd hw hc
        · exact absurd hcase (by tauto)
      · exact hmem

lemma looks_like_heading_iff (line : List Char) :
    looks_like_heading line = true ↔ c8_spec_heading line := by
  have hs2 : (if (pyStrip line).getLast? == some ':' then (pyStrip line).dropLast
      else pyStrip line) =
      (if (pyStrip line).getLast? = some ':' then (pyStrip line).dropLast
      else pyStrip line) := by
    by_cases hc : (pyStrip line).getLast? = some ':' <;> simp [hc]
  simp only [looks_like_heading, c8_spec_heading, hs2]
  by_cases h1 : 80 < (pyStrip line).length
  · simp only [h1, decide_True, Bool.true_or, if_true, Bool.false_eq_true, false_iff]
    rintro ⟨-, hb, -⟩
    omega
  · by_cases h2 : (pyStrip line).length < 3
    · simp only [h2, decide_True, Bool.or_true, if_true, Bool.false_eq_true, false_iff]
      rintro ⟨ha, -, -⟩
      omega
    · have hd1 : decide (80 < (pyStrip line).length) = false := by simp [h1]
      have hd2 : decide ((pyStrip line).length < 3) = false := by simp [h2]
      rw [hd1, hd2]
      simp only [Bool.or_self, Bool.false_eq_true, if_false]
      have hl1 : 3 ≤ (pyStrip line).length := by omega
      have hl2 : (pyStrip line).length ≤ 80 := by omega
      simp only [hl1, hl2, true_and]
      exact heading_core_iff _

/-- C8: `_detect_section_order` returns exactly the heading-classified lines,
normalized, in first-occurrence order, deduplicated by lowercase
colon-stripped key (the second dedup pass of the source is idempotent), capped
at 12 entries; the heading criterion matches the claim's; the result is a
sublist of the normalized heading lines (so relative order is preserved); and
the concrete text with headings "Experience" then "Eduation" keeps them in
that order. -/
theorem c8_section_order_detection :
    (∀ t, detect_section_order t = c8_spec_detect t) ∧
    (∀ line, looks_like_heading line = true ↔ c8_spec_heading line) ∧
    (∀ t, (detect_section_order t).length ≤ 12) ∧
    (∀ t, List.Sublist (detect_section_order t)
      (((splitlines t).filter looks_like_heading).map normalize_heading)) ∧
    detect_section_order (S "john doe\nExperience\nstuff lol here\nEducation\nBS") =
      [S "Experience", S "Education"] := by
  have hset : ∀ t, detect_section_order t = c8_spec_detect t := by
    intro t
    rw [detect_section_order, c8_spec_detect, dsoLoop_eq, dedupKey_idem]
  refine ⟨hset, looks_like_heading_iff, ?_, ?_, by decide⟩
  · intro t
    rw [detect_section_order]
    exact List.length_take_le _ _
  · intro t
    rw [hset, c8_spec_detect]
    exact (List.take_sublist _ _).trans (dedupKey_sublist _ [])

/-! ## C4: post-processing of the generation result -/

lemma containsB_false_iff (hay needle : List Char) :
    containsB hay needle = false ↔ ¬ needle <:+: hay := by
  cases hcb : containsB hay needle
  · simp only [true_iff]
    intro hc
    rw [(containsB_iff hay needle).mpr hc] at hcb
    cases hcb
  · simp only [Bool.true_eq_false, false_iff, not_not]
    exact (containsB_iff hay needle).mp hcb

lemma doctypeStep_eq (h : List Char) :
    doctypeStep h = if (S "<!doctype") <:+: lower h then h
      else S "<!doctype html>\n" ++ h := by
  rw [doctypeStep]
  by_cases hc : (S "<!doctype") <:+: lower h
  · rw [if_pos ((containsB_iff _ _).mpr hc), if_pos hc]
  · rw [if_neg (by simp [containsB_false_iff, hc]), if_neg hc]

lemma doctypeStep_ne (h : List Char) (hne : h ≠ []) : doctypeStep h ≠ [] := by
  rw [doctypeStep_eq]
  split
  · exact hne
  · simp [S]

lemma styleStep_eq (h1 : List Char) (hne : h1 ≠ []) :
    styleStep h1 =
      if (S "<style") <:+: lower h1 then
        (if liNeedle <:+: h1 then h1
          else replaceAll styleClose (liRule ++ styleClose) h1)
      else if (S "<head>") <:+: h1 then
        replaceAll (S "<head>") (S "<head>\n" ++ cssBlock) h1
      else S "<!doctype html><html><head>" ++ cssBlock ++ S "</head><body>" ++ h1 ++
        S "</body></html>" := by
  rw [styleStep]
  by_cases hS : (S "<style") <:+: lower h1
  · rw [(containsB_iff _ _).mpr hS]
    simp only [Bool.not_true, Bool.false_eq_true, if_false, if_pos hS]
    by_cases hL : liNeedle <:+: h1
    · rw [(containsB_iff _ _).mpr hL]
      simp only [Bool.not_true, Bool.false_eq_true, if_false, if_pos hL]
    · rw [(containsB_false_iff _ _).mpr hL]
      simp only [Bool.not_false, if_true, if_neg hL]
  · rw [(containsB_false_iff _ _).mpr hS]
    simp only [Bool.not_false, if_true, if_neg hS]
    by_cases hH : (S "<head>") <:+: h1
    · rw [(containsB_iff _ _).mpr hH]
      simp only [if_true, if_pos hH]
    · rw [(containsB_false_iff _ _).mpr hH]
      simp only [Bool.false_eq_true, if_false, if_neg hH]
      by_cases hHtml : (S "<html") <:+: lower h1
      · rw [(containsB_iff _ _).mpr hHtml]
        simp only [if_true, List.isEmpty_nil, if_true]
      · rw [(containsB_false_iff _ _).mpr hHtml]
        simp only [Bool.false_eq_true, if_false]
        rw [if_neg (by simpa [List.isEmpty_iff] using hne)]

/-- C4 counterexample: a generation result that contains `<!doctype` away from
its start (and already has a style block forcing the list-item colour) passes
through the post-processing unchanged, so the output does not begin with a
doctype declaration, refuting the claim's "begins with" for that input. -/
theorem c4_doctype_counterexample :
    ¬ (S "<!doctype") <+:
      postprocess (S "x<!doctype html><style>li\x7bcolor:#fff\x7d</style>") := by
  decide

/-- C4 (amended): for every non-empty generation result, the post-processing
prepends a doctype when the input lacked one case-insensitively (so the output
then begins with `<!doctype`), and in every case the output contains a doctype
and a style tag case-insensitively; when the (doctype-adjusted) input lacks a
style tag, the default css is injected after `<head>` when `<head>` occurs,
otherwise the input is wrapped in a minimal document; when a style tag exists
but `li{color` does not occur, every `</style>` occurrence has the list-item
colour rule injected before it (so whenever a closing style tag exists, the
injected rule followed by `</style>` occurs in the output). -/
theorem c4_postprocess_amended : ∀ html : List Char, html ≠ [] →
    ((¬ (S "<!doctype") <:+: lower html) → (S "<!doctype") <+: postprocess html) ∧
    (S "<!doctype") <:+: lower (postprocess html) ∧
    (S "<style") <:+: lower (postprocess html) ∧
    (¬ (S "<style") <:+: lower (doctypeStep html) →
      (S "<head>") <:+: doctypeStep html →
      postprocess html =
        replaceAll (S "<head>") (S "<head>\n" ++ cssBlock) (doctypeStep html)) ∧
    (¬ (S "<style") <:+: lower (doctypeStep html) →
      ¬ (S "<head>") <:+: doctypeStep html →
      postprocess html = S "<!doctype html><html><head>" ++ cssBlock ++
        S "</head><body>" ++ doctypeStep html ++ S "</body></html>") ∧
    ((S "<style") <:+: lower (doctypeStep html) →
      ¬ liNeedle <:+: doctypeStep html →
      postprocess html = replaceAll styleClose (liRule ++ styleClose) (doctypeStep html) ∧
      (styleClose <:+: doctypeStep html →
        (liRule ++ styleClose) <:+: postprocess html)) := by
  intro html hne
  have hd1ne : doctypeStep html ≠ [] := doctypeStep_ne html hne
  have hpost : postprocess html = styleStep (doctypeStep html) := rfl
  have hstyle := styleStep_eq (doctypeStep html) hd1ne
  -- literal side conditions, all decidable
  have hdHead : ∀ i, i < (S "<!doctype html>\n").length →
      ¬ (S "<head>") <+: (S "<!doctype html>\n").drop i ∧
        ¬ (S "<!doctype html>\n").drop i <+: (S "<head>") := by decide
  have hdClose : ∀ i, i < (S "<!doctype html>\n").length →
      ¬ styleClose <+: (S "<!doctype html>\n").drop i ∧
        ¬ (S "<!doctype html>\n").drop i <+: styleClose := by decide
  have hA : (¬ (S "<!doctype") <:+: lower html) →
      (S "<!doctype") <+: postprocess html := by
    intro hnd
    have hd1 : doctypeStep html = S "<!doctype html>\n" ++ html := by
      rw [doctypeStep_eq, if_neg hnd]
    rw [hpost, hstyle, hd1]
    by_cases hS : (S "<style") <:+: lower (S "<!doctype html>\n" ++ html)
    · rw [if_pos hS]
      by_cases hL : liNeedle <:+: (S "<!doctype html>\n" ++ html)
      · rw [if_pos hL]
        exact (by decide : (S "<!doctype") <+: S "<!doctype html>\n").trans
          (List.prefix_append _ _)
      · rw [if_neg hL, replaceAll_append_left styleClose (liRule ++ styleClose)
          (S "<!doctype html>\n") html hdClose]
        exact (by decide : (S "<!doctype") <+: S "<!doctype html>\n").trans
          (List.prefix_append _ _)
    · rw [if_neg hS]
      by_cases hH : (S "<head>") <:+: (S "<!doctype html>\n" ++ html)
      · rw [if_pos hH, replaceAll_append_left (S "<head>")
          (S "<head>\n" ++ cssBlock) (S "<!doctype html>\n") html hdHead]
        exact (by decide : (S "<!doctype") <+: S "<!doctype html>\n").trans
          (List.prefix_append _ _)
      · rw [if_neg hH]
        simp only [List.append_assoc]
        exact (by decide : (S "<!doctype") <+: S "<!doctype html><html><head>").trans
          (List.prefix_append _ _)
  have hlowdoc : lower (S "<!doctype") = S "<!doctype" := by decide
  have hB : (S "<!doctype") <:+: lower (postprocess html) := by
    by_cases hIn : (S "<!doctype") <:+: lower html
    · have hd1 : doctypeStep html = html := by
        rw [doctypeStep_eq, if_pos hIn]
      rw [hpost, hstyle, hd1]
      by_cases hS : (S "<style") <:+: lower html
      · rw [if_pos hS]
        by_cases hL : liNeedle <:+: html
        · rw [if_pos hL]
          exact hIn
        · rw [if_neg hL]
          exact infix_lower_replaceAll styleClose (liRule ++ styleClose)
            (S "<!doctype") (by decide) (by decide) (by decide) (by decide) html hIn
      · rw [if_neg hS]
        by_cases hH : (S "<head>") <:+: html
        · rw [if_pos hH]
          exact infix_lower_replaceAll (S "<head>") (S "<head>\n" ++ cssBlock)
            (S "<!doctype") (by decide) (by decide) (by decide) (by decide) html hIn
        · rw [if_neg hH]
          simp only [List.append_assoc, lower_append]
          exact List.IsPrefix.isInfix
            ((by decide : (S "<!doctype") <+: lower (S "<!doctype html><html><head>")).trans
              (List.prefix_append _ _))
    · have hpre := hA hIn
      have hmap := List.IsPrefix.map Char.toLower hpre
      rw [show List.map Char.toLower (S "<!doctype") = S "<!doctype" from by decide] at hmap
      exact List.IsPrefix.isInfix hmap
  have hC : (S "<style") <:+: lower (postprocess html) := by
    rw [hpost, hstyle]
    by_cases hS : (S "<style") <:+: lower (doctypeStep html)
    · rw [if_pos hS]
      by_cases hL : liNeedle <:+: doctypeStep html
      · rw [if_pos hL]
        exact hS
      · rw [if_neg hL]
        exact infix_lower_replaceAll styleClose (liRule ++ styleClose)
          (S "<style") (by decide) (by decide) (by decide) (by decide)
          (doctypeStep html) hS
    · rw [if_neg hS]
      by_cases hH : (S "<head>") <:+: doctypeStep html
      · rw [if_pos hH]
        have hrep := infix_replaceAll_rep (S "<head>") (S "<head>\n" ++ cssBlock)
          (by decide) (doctypeStep html) hH
        have hmap := List.IsInfix.map Char.toLower hrep
        refine List.IsInfix.trans ?_ hmap
        decide
      · rw [if_neg hH]
        simp only [List.append_assoc, lower_append]
        refine List.IsInfix.trans ?_ ( List.IsSuffix.isInfix (List.suffix_append _ _))
        exact List.IsPrefix.isInfix
          ((show (S "<style") <+: lower cssBlock by decide).trans (List.prefix_append _ _))
  refine ⟨hA, hB, hC, ?_, ?_, ?_⟩
  · intro hS hH
    rw [hpost, hstyle, if_neg hS, if_pos hH]
  · intro hS hH
    rw [hpost, hstyle, if_neg hS, if_neg hH]
  · intro hS hL
    have heq : postprocess html =
        replaceAll styleClose (liRule ++ styleClose) (doctypeStep html) := by
      rw [hpost, hstyle, if_pos hS, if_neg hL]
    refine ⟨heq, fun hCl => ?_⟩
    rw [heq]
    exact infix_replaceAll_rep styleClose (liRule ++ styleClose) (by decide)
      (doctypeStep html) hCl

/-- C4 witness: the amended theorem applied at a concrete doctype-less input:
the post-processed output begins with the prepended doctype. -/
theorem c4_postprocess_amended_witness :
    (S "<!doctype") <+: postprocess (S "zzz") :=
  ((c4_postprocess_amended (S "zzz") (by decide)).1) (by decide)

/-! ## C1: the retry logic of `_ai_tailor_resume_html` -/

/-- C1: with a credential configured, when retries are permitted and the first
attempt's post-processed output fails the invariant/order verification,
exactly one retry generation call is made (the call counter reaches 2), and
the result is the retry's output when that passes both checks, otherwise the
first attempt's output — so verification failure never makes the function
fail: a string is returned on every path. -/
theorem c1_retry_adoption (resume job interests : List Char) (maxRetries : Nat)
    (r1 r2 : Except (List Char) (List Char))
    (hr : 0 < maxRetries)
    (hfail : verifyB (extract_contact_bits resume) (detect_section_order resume)
      (call_once r1) = false) :
    ai_tailor_resume_html resume job interests true maxRetries r1 r2 =
      (if verifyB (extract_contact_bits resume) (detect_section_order resume)
          (call_once r2) = true
        then call_once r2 else call_once r1, 2) := by
  simp only [ai_tailor_resume_html, Bool.not_true, Bool.false_eq_true, if_false]
  rw [if_pos ⟨hr, hfail⟩]

/-- C1 witness: concrete oracles where the first attempt drops the extracted
name and the retry restores it; the theorem yields the retry's output and a
call count of 2. -/
theorem c1_retry_adoption_witness :
    ai_tailor_resume_html (S "qqqq") [] [] true 1 (.ok (S "zzz"))
      (.ok (S "qqqq<style></style>")) =
      (call_once (.ok (S "qqqq<style></style>")), 2) := by
  rw [c1_retry_adoption (S "qqqq") [] [] 1 (.ok (S "zzz"))
    (.ok (S "qqqq<style></style>")) (by decide) (by decide)]
  rw [if_pos (by decide)]

/-! ## C3: the no-credential fallback -/

/-- C3: with no generation credential the builder returns the deterministic
fallback page with zero generation calls (no network use); the page begins
with a doctype, ends with `</html>`, contains the `<`/`>`-escaped resume text
verbatim inside the preformatted block, and carries the extracted-name header
(`"Your Name"` when no name was extracted); the path is total, hence always
succeeds. -/
theorem c3_no_key_fallback :
    ∀ (resume job interests : List Char) (maxRetries : Nat)
      (r1 r2 : Except (List Char) (List Char)),
    ai_tailor_resume_html resume job interests false maxRetries r1 r2 =
      (tailor_no_key resume, 0) ∧
    (S "<!doctype html>") <+: tailor_no_key resume ∧
    (S "</html>") <:+ tailor_no_key resume ∧
    (preOpen ++ safe_resume_of resume ++ S "</pre>") <:+: tailor_no_key resume ∧
    (S "<h1>" ++ htmlEscape (if (extract_contact_bits resume).name.isEmpty
        then S "Your Name" else (extract_contact_bits resume).name) ++ S "</h1>")
      <:+: tailor_no_key resume := by
  intro resume job interests maxRetries r1 r2
  refine ⟨rfl, ?_, ?_, ?_, ?_⟩
  · simp only [tailor_no_key, List.append_assoc]
    exact (show (S "<!doctype html>") <+: tnkA by decide).trans (List.prefix_append _ _)
  · simp only [tailor_no_key, ← List.append_assoc]
    exact List.IsSuffix.trans (by decide : (S "</html>") <:+ tnkF)
      (List.suffix_append _ _)
  · refine ⟨tnkA ++ S "<h1>" ++
      htmlEscape (if (extract_contact_bits resume).name.isEmpty
        then S "Your Name" else (extract_contact_bits resume).name) ++ S "</h1>" ++
      tnkB ++ htmlEscape (extract_contact_bits resume).email ++ S " " ++
      htmlEscape (extract_contact_bits resume).phone ++ tnkD ++
      joinSep (S " • ") ((extract_contact_bits resume).links.map htmlEscape) ++ tnkE,
      tnkF, ?_⟩
    simp only [tailor_no_key, List.append_assoc]
  · refine ⟨tnkA,
      tnkB ++ htmlEscape (extract_contact_bits resume).email ++ S " " ++
      htmlEscape (extract_contact_bits resume).phone ++ tnkD ++
      joinSep (S " • ") ((extract_contact_bits resume).links.map htmlEscape) ++ tnkE ++
      preOpen ++ safe_resume_of resume ++ S "</pre>" ++ tnkF, ?_⟩
    simp only [tailor_no_key, List.append_assoc]

end ResumeLambda
